import Mathlib

/-!
Shallow embedding of the task-tracker bot (`src/bot.py`): the `TaskManager`
store (a Python dict from user id to `{'tasks': [...]}` plus the JSON
persistence side effect, modelled by a save counter), the task-creation
conversation handlers (`add_task_start`, `add_task_text`, `set_priority`,
`set_reminder`), the pending-action resolver (`handle_task_action`) and
`cancel`.  Wall-clock readings (`datetime.now()`) are passed in as explicit
parameters measured in seconds; `strftime('%Y-%m-%d %H:%M:%S')` is abstracted
as an uninterpreted formatting function `fmt : Nat → String` applied to such
a reading.
-/

set_option autoImplicit false

namespace Bot

/-- A Python dict modelled as an insertion-ordered association list with
distinct keys.  `dictGet` is `d[k]` / `k in d`; returns the first binding. -/
def dictGet {κ : Type} [DecidableEq κ] {α : Type} : List (κ × α) → κ → Option α
  | [], _ => none
  | (k', v) :: rest, k => if k' = k then some v else dictGet rest k

/-- `d[k] = v`: updates the binding in place if the key is present, otherwise
appends a new binding at the end (Python dicts preserve insertion order). -/
def dictSet {κ : Type} [DecidableEq κ] {α : Type} : List (κ × α) → κ → α → List (κ × α)
  | [], k, v => [(k, v)]
  | (k', v') :: rest, k, v =>
    if k' = k then (k, v) :: rest else (k', v') :: dictSet rest k v

/-- A task dict `{id, text, priority, created_at, completed, reminder}` as
built by `TaskManager.add_task`.  `priority` is an `Option` because
`get_tasks_by_priority` reads it with `task.get('priority', default)`, i.e.
the key may be absent in loaded data. -/
structure Task where
  id : Int
  text : String
  priority : Option String
  created_at : String
  completed : Bool
  reminder : Option String
  deriving Repr, DecidableEq

/-- The per-user value `{'tasks': [...]}` stored in `TaskManager.tasks`. -/
structure UserEntry where
  tasks : List Task
  deriving Repr, DecidableEq

/-- The in-memory `TaskManager` state: the dict `self.tasks` keyed by user id,
plus a counter of `_save_tasks()` calls modelling the persistence writes. -/
structure TaskManager where
  tasks : List (Int × UserEntry)
  saves : Nat
  deriving Repr, DecidableEq

/-- `PRIORITIES` from `bot.py`. -/
def PRIORITIES : List String := ["🔴 Высокий", "🟡 Средний", "🟢 Низкий"]

/-- The default priority `'🟡 Средний'` (Medium). -/
def MEDIUM : String := "🟡 Средний"

/-- The task list of `uid` as the store currently records it (a user with no
entry has no tasks). -/
def currentTasks (tm : TaskManager) (uid : Int) : List Task :=
  match dictGet tm.tasks uid with
  | some e => e.tasks
  | none => []

/-- `TaskManager.get_user_tasks`: materializes an empty entry for an absent
user, then returns that user's task list. -/
def get_user_tasks (tm : TaskManager) (uid : Int) : TaskManager × List Task :=
  match dictGet tm.tasks uid with
  | none => ({ tm with tasks := dictSet tm.tasks uid ⟨[]⟩ }, [])
  | some e => (tm, e.tasks)

/-- `TaskManager.add_task`: materializes the user entry if absent, builds the
task with `id = len(tasks) + 1`, appends it, saves, and returns the task.
`created_at` is the `datetime.now().strftime(...)` reading at call time,
passed in as a parameter. -/
def add_task (tm : TaskManager) (uid : Int) (text : String) (priority : String)
    (created_at : String) (reminder : Option String) : TaskManager × Task :=
  let tm1 : TaskManager :=
    match dictGet tm.tasks uid with
    | none => { tm with tasks := dictSet tm.tasks uid ⟨[]⟩ }
    | some _ => tm
  let cur : List Task := currentTasks tm1 uid
  let task : Task :=
    { id := (cur.length : Int) + 1, text := text, priority := some priority,
      created_at := created_at, completed := false, reminder := reminder }
  ({ tm1 with tasks := dictSet tm1.tasks uid ⟨cur ++ [task]⟩, saves := tm1.saves + 1 },
   task)

/-- The loop body of `TaskManager.complete_task`: sets `completed = True` on
the first task with the given id, or reports that none matched. -/
def completeFirst : List Task → Int → Option (List Task)
  | [], _ => none
  | t :: rest, tid =>
    if t.id = tid then some ({ t with completed := true } :: rest)
    else
      match completeFirst rest tid with
      | none => none
      | some rest' => some (t :: rest')

/-- `TaskManager.complete_task`: scans the user's list (after
`get_user_tasks`, which may materialize an empty entry); on a match sets the
first matching task's `completed` to `True`, saves and returns `True`;
otherwise returns `False` with no save. -/
def complete_task (tm : TaskManager) (uid : Int) (tid : Int) : TaskManager × Bool :=
  let p := get_user_tasks tm uid
  match completeFirst p.2 tid with
  | none => (p.1, false)
  | some ts' =>
    ({ p.1 with tasks := dictSet p.1.tasks uid ⟨ts'⟩, saves := p.1.saves + 1 }, true)

/-- `TaskManager.delete_task`: replaces the user's list by
`[t for t in tasks if t['id'] != task_id]` (removing every match), then saves
and returns `True` iff the list shrank. -/
def delete_task (tm : TaskManager) (uid : Int) (tid : Int) : TaskManager × Bool :=
  let p := get_user_tasks tm uid
  let ts' := p.2.filter (fun t => t.id ≠ tid)
  let tm2 : TaskManager := { p.1 with tasks := dictSet p.1.tasks uid ⟨ts'⟩ }
  if ts'.length < p.2.length then ({ tm2 with saves := tm2.saves + 1 }, true)
  else (tm2, false)

/-- The loop body of `TaskManager.get_tasks_by_priority`: skip completed
tasks, read `task.get('priority', '🟡 Средний')`, and append the task to that
bucket when the bucket exists (`if priority in categorized`). -/
def bucketStep (acc : List (String × List Task)) (t : Task) : List (String × List Task) :=
  if t.completed then acc
  else
    let pr := t.priority.getD MEDIUM
    match dictGet acc pr with
    | some b => dictSet acc pr (b ++ [t])
    | none => acc

/-- `TaskManager.get_tasks_by_priority`: builds `{p: [] for p in PRIORITIES}`
and walks the user's list with `bucketStep`. -/
def get_tasks_by_priority (tm : TaskManager) (uid : Int) :
    TaskManager × List (String × List Task) :=
  let p := get_user_tasks tm uid
  (p.1, p.2.foldl bucketStep (PRIORITIES.map fun q => (q, ([] : List Task))))

/-- The conversation states of the add-task dialogue.  `ADD_TASK`,
`SET_PRIORITY`, `SET_REMINDER` are the `ConversationHandler` states of
`bot.py`; `idle` stands for `ConversationHandler.END` (no open dialogue). -/
inductive ConvState where
  | idle
  | ADD_TASK
  | SET_PRIORITY
  | SET_REMINDER
  deriving Repr, DecidableEq

/-- The per-user `context.user_data` dict: the two draft fields written by the
creation dialogue and the two pending-action flags (a flag absent from the
dict, e.g. after `dict.pop`, is `false`). -/
structure UserData where
  task_text : Option String
  task_priority : Option String
  awaiting_complete : Bool
  awaiting_delete : Bool
  deriving Repr, DecidableEq

/-- `context.user_data.clear()` / a fresh user's `user_data`. -/
def emptyUserData : UserData := ⟨none, none, false, false⟩

/-- `add_task_start`: replies with the text prompt and returns `ADD_TASK`;
it does not touch `user_data`. -/
def add_task_start (ud : UserData) : ConvState × UserData :=
  (ConvState.ADD_TASK, ud)

/-- `add_task_text`: stores the message text as the draft's text and moves to
the priority step. -/
def add_task_text (input : String) (ud : UserData) : ConvState × UserData :=
  (ConvState.SET_PRIORITY, { ud with task_text := some input })

/-- `set_priority`: rejects input outside `PRIORITIES` (stays in
`SET_PRIORITY`, draft untouched), otherwise stores the priority and moves to
the reminder step. -/
def set_priority (input : String) (ud : UserData) : ConvState × UserData :=
  if input ∈ PRIORITIES then
    (ConvState.SET_REMINDER, { ud with task_priority := some input })
  else (ConvState.SET_PRIORITY, ud)

/-- The reminder-offset computation in `set_reminder`: `now` is the
`datetime.now()` reading in seconds; `timedelta(hours=1)` is 3600 s,
`timedelta(days=1)` is 86400 s, `timedelta(weeks=1)` is 604800 s.  Any other
input yields no reminder. -/
def computeReminder (now : Nat) (input : String) : Option Nat :=
  if input = "Через 1 час" then some (now + 3600)
  else if input = "Через 3 часа" then some (now + 3 * 3600)
  else if input = "Завтра" then some (now + 86400)
  else if input = "Через неделю" then some (now + 7 * 86400)
  else none

/-- `set_reminder`: computes the optional reminder timestamp from the input,
reads the draft fields (`user_data['task_text']` / `['task_priority']`;
`none` models the `KeyError` when a field is absent), creates the task via
`add_task`, clears `user_data`, and ends the conversation.  `fmt` abstracts
`strftime('%Y-%m-%d %H:%M:%S')` applied to a seconds reading. -/
def set_reminder (fmt : Nat → String) (now : Nat) (uid : Int) (input : String)
    (ud : UserData) (tm : TaskManager) :
    Option (ConvState × UserData × TaskManager × Task) := do
  let text ← ud.task_text
  let pr ← ud.task_priority
  let reminder := (computeReminder now input).map fmt
  let p := add_task tm uid text pr (fmt now) reminder
  some (ConvState.idle, emptyUserData, p.1, p.2)

/-- Characters Python's `int()` strips around the literal (ASCII
whitespace). -/
def isPySpace (c : Char) : Bool :=
  c = ' ' || c = '\t' || c = '\n' || c = '\r' || c = '\x0b' || c = '\x0c'

/-- Accumulates the value of an all-digit run; any non-digit fails. -/
def parseDigitsAux : Nat → List Char → Option Nat
  | acc, [] => some acc
  | acc, c :: rest =>
    if c.isDigit then parseDigitsAux (10 * acc + (c.toNat - 48)) rest else none

/-- Models Python `int(text)` as used by `handle_task_action`: optional
surrounding whitespace, an optional single sign, then one or more ASCII
digits; everything else raises `ValueError` (here `none`).  (Python also
accepts underscore digit separators and non-ASCII digits; such inputs are
outside this model.) -/
def pyInt (s : String) : Option Int :=
  let cs := ((s.toList.dropWhile isPySpace).reverse.dropWhile isPySpace).reverse
  match cs with
  | [] => none
  | '+' :: rest =>
    if rest = [] then none else (parseDigitsAux 0 rest).map (fun n => (n : Int))
  | '-' :: rest =>
    if rest = [] then none else (parseDigitsAux 0 rest).map (fun n => -(n : Int))
  | _ => (parseDigitsAux 0 cs).map (fun n => (n : Int))

/-- `handle_task_action`: parses the message as an integer (replies and
returns on `ValueError`, leaving everything unchanged); with
`awaiting_complete` set it completes that id and pops (clears) the flag;
otherwise with `awaiting_delete` set it deletes that id and pops that flag;
with no flag set nothing happens. -/
def handle_task_action (tm : TaskManager) (uid : Int) (ud : UserData)
    (text : String) : TaskManager × UserData :=
  match pyInt text with
  | none => (tm, ud)
  | some tid =>
    if ud.awaiting_complete then
      ((complete_task tm uid tid).1, { ud with awaiting_complete := false })
    else if ud.awaiting_delete then
      ((delete_task tm uid tid).1, { ud with awaiting_delete := false })
    else (tm, ud)

/-- `cancel`: `context.user_data.clear()`; the task store is not touched. -/
def cancel (ud : UserData) (tm : TaskManager) : UserData × TaskManager :=
  (emptyUserData, tm)

/-- One free-text message delivered to the open conversation: dispatches to
the state's registered handler.  In `idle` no conversation handler runs, so
the dialogue state is unaffected (such messages go to the resolver instead).
`none` models an uncaught `KeyError` in `set_reminder`. -/
def dialogStep (fmt : Nat → String) (now : Nat) (uid : Int) (s : ConvState)
    (ud : UserData) (tm : TaskManager) (input : String) :
    Option (ConvState × UserData × TaskManager × Option Task) :=
  match s with
  | ConvState.idle => some (ConvState.idle, ud, tm, none)
  | ConvState.ADD_TASK =>
    let p := add_task_text input ud
    some (p.1, p.2, tm, none)
  | ConvState.SET_PRIORITY =>
    let p := set_priority input ud
    some (p.1, p.2, tm, none)
  | ConvState.SET_REMINDER =>
    match set_reminder fmt now uid input ud tm with
    | none => none
    | some r => some (r.1, r.2.1, r.2.2.1, some r.2.2.2)

/-- Runs a sequence of free-text messages through the dialogue, collecting
the tasks created along the way. -/
def convRun (fmt : Nat → String) (now : Nat) (uid : Int) :
    ConvState → UserData → TaskManager → List String →
    Option (ConvState × UserData × TaskManager × List Task)
  | s, ud, tm, [] => some (s, ud, tm, [])
  | s, ud, tm, i :: rest =>
    match dialogStep fmt now uid s ud tm i with
    | none => none
    | some r =>
      match convRun fmt now uid r.1 r.2.1 r.2.2.1 rest with
      | none => none
      | some q => some (q.1, q.2.1, q.2.2.1, r.2.2.2.toList ++ q.2.2.2)

/-- A store in which user 1 has two tasks that share id 2 (such duplicates
are reachable: add, add, delete id 1, add reuses id 2). -/
def tmDup : TaskManager :=
  ⟨[(1, ⟨[⟨2, "B", some MEDIUM, "t2", false, none⟩,
          ⟨2, "C", some MEDIUM, "t3", false, none⟩]⟩)], 0⟩

/-- A store in which user 1 has the single task id 1. -/
def tmOne : TaskManager := ⟨[(1, ⟨[⟨1, "A", some MEDIUM, "t1", false, none⟩]⟩)], 0⟩

/-- A store in which user 1 has the single, already-completed task id 1. -/
def tmDone : TaskManager := ⟨[(1, ⟨[⟨1, "A", some MEDIUM, "t1", true, none⟩]⟩)], 0⟩

/-- An incomplete task whose dict has no `priority` key. -/
def taskNoPr : Task := ⟨1, "N", none, "t1", false, none⟩

/-- An incomplete task whose stored priority is not one of `PRIORITIES`. -/
def taskBadPr : Task := ⟨2, "X", some "???", "t2", false, none⟩

/-- A store in which user 1 has `taskNoPr` and `taskBadPr`. -/
def tmMixed : TaskManager := ⟨[(1, ⟨[taskNoPr, taskBadPr]⟩)], 0⟩

/-- A `user_data` in which the awaiting-completion flag is set. -/
def udAwaitC : UserData := ⟨none, none, true, false⟩

theorem dictGet_dictSet_self {κ : Type} [DecidableEq κ] {α : Type}
    (d : List (κ × α)) (k : κ) (v : α) : dictGet (dictSet d k v) k = some v := by
  induction d with
  | nil => simp [dictGet, dictSet]
  | cons hd tl ih =>
    obtain ⟨k', v'⟩ := hd
    by_cases hk : k' = k
    · simp [dictGet, dictSet, hk]
    · simp [dictGet, dictSet, hk, ih]

theorem dictGet_dictSet_ne {κ : Type} [DecidableEq κ] {α : Type}
    (d : List (κ × α)) (k k' : κ) (v : α) (h : k' ≠ k) :
    dictGet (dictSet d k v) k' = dictGet d k' := by
  have hne : ¬ k = k' := fun hh => h hh.symm
  induction d with
  | nil => simp [dictGet, dictSet, hne]
  | cons hd tl ih =>
    obtain ⟨k'', v'⟩ := hd
    by_cases hk : k'' = k
    · subst hk
      simp [dictGet, dictSet, hne]
    · simp only [dictSet, if_neg hk, dictGet]
      by_cases hk' : k'' = k'
      · simp [hk']
      · simp [hk', ih]

theorem dictSet_eq_of_dictGet {κ : Type} [DecidableEq κ] {α : Type}
    (d : List (κ × α)) (k : κ) (v : α) (h : dictGet d k = some v) :
    dictSet d k v = d := by
  induction d with
  | nil => simp [dictGet] at h
  | cons hd tl ih =>
    obtain ⟨k', v'⟩ := hd
    by_cases hk : k' = k
    · subst hk
      simp only [dictGet, if_pos rfl] at h
      injection h with h
      simp [dictSet, h]
    · simp only [dictGet, if_neg hk] at h
      simp [dictSet, hk, ih h]

theorem dictSet_keys_of_mem {κ : Type} [DecidableEq κ] {α : Type}
    (d : List (κ × α)) (k : κ) (v w : α) (h : dictGet d k = some w) :
    (dictSet d k v).map Prod.fst = d.map Prod.fst := by
  induction d with
  | nil => simp [dictGet] at h
  | cons hd tl ih =>
    obtain ⟨k', v'⟩ := hd
    by_cases hk : k' = k
    · subst hk
      simp [dictSet]
    · simp only [dictGet, if_neg hk] at h
      simp [dictSet, hk, ih h]

theorem get_user_tasks_snd (tm : TaskManager) (uid : Int) :
    (get_user_tasks tm uid).2 = currentTasks tm uid := by
  cases h : dictGet tm.tasks uid with
  | none => simp [get_user_tasks, currentTasks, h]
  | some e => simp [get_user_tasks, currentTasks, h]

theorem get_user_tasks_saves (tm : TaskManager) (uid : Int) :
    (get_user_tasks tm uid).1.saves = tm.saves := by
  cases h : dictGet tm.tasks uid with
  | none => simp [get_user_tasks, h]
  | some e => simp [get_user_tasks, h]

theorem get_user_tasks_dictGet (tm : TaskManager) (uid : Int) :
    dictGet (get_user_tasks tm uid).1.tasks uid = some ⟨currentTasks tm uid⟩ := by
  cases h : dictGet tm.tasks uid with
  | none => simp [get_user_tasks, currentTasks, h, dictGet_dictSet_self]
  | some e => simp [get_user_tasks, currentTasks, h]

theorem get_user_tasks_currentTasks (tm : TaskManager) (uid u : Int) :
    currentTasks (get_user_tasks tm uid).1 u = currentTasks tm u := by
  cases h : dictGet tm.tasks uid with
  | none =>
    by_cases hu : u = uid
    · subst hu
      simp [get_user_tasks, currentTasks, h, dictGet_dictSet_self]
    · simp [get_user_tasks, currentTasks, h, dictGet_dictSet_ne _ _ _ _ hu]
  | some e => simp [get_user_tasks, h]

theorem get_user_tasks_tasks_of_some (tm : TaskManager) (uid : Int)
    (h : (dictGet tm.tasks uid).isSome) : (get_user_tasks tm uid).1 = tm := by
  cases he : dictGet tm.tasks uid with
  | none => simp [he] at h
  | some e => simp [get_user_tasks, he]

theorem get_user_tasks_tasks_of_none (tm : TaskManager) (uid : Int)
    (h : dictGet tm.tasks uid = none) :
    (get_user_tasks tm uid).1.tasks = dictSet tm.tasks uid ⟨[]⟩ := by
  simp [get_user_tasks, h]

theorem filter_length_lt_iff {α : Type} (l : List α) (p : α → Bool) :
    (l.filter p).length < l.length ↔ ∃ a ∈ l, ¬ p a := by
  constructor
  · intro h
    by_contra hc
    push_neg at hc
    have : l.filter p = l := List.filter_eq_self.mpr hc
    rw [this] at h
    exact Nat.lt_irrefl _ h
  · rintro ⟨a, ha, hpa⟩
    have hsub : List.Sublist (l.filter p) l := List.filter_sublist l
    have hle : (l.filter p).length ≤ l.length := hsub.length_le
    rcases Nat.lt_or_ge (l.filter p).length l.length with hlt | hge
    · exact hlt
    · exfalso
      have heq : l.filter p = l :=
        hsub.eq_of_length (Nat.le_antisymm hle hge)
      exact hpa (List.filter_eq_self.mp heq a ha)

/-- Components of `delete_task`: the resulting dict always rebinds the user's
list to the filtered list (every matching id removed). -/
theorem delete_task_tasks (tm : TaskManager) (uid tid : Int) :
    (delete_task tm uid tid).1.tasks
      = dictSet (get_user_tasks tm uid).1.tasks uid
          ⟨(currentTasks tm uid).filter (fun t => t.id ≠ tid)⟩ := by
  simp only [delete_task, get_user_tasks_snd]
  split <;> rfl

theorem delete_task_bool_iff (tm : TaskManager) (uid tid : Int) :
    (delete_task tm uid tid).2 = true ↔ ∃ t ∈ currentTasks tm uid, t.id = tid := by
  simp only [delete_task, get_user_tasks_snd]
  split
  · rename_i h
    rw [filter_length_lt_iff] at h
    obtain ⟨t, ht, hp⟩ := h
    exact iff_of_true rfl ⟨t, ht, by simpa using hp⟩
  · rename_i h
    rw [filter_length_lt_iff] at h
    push_neg at h
    refine iff_of_false (by simp) ?_
    rintro ⟨t, ht, hid⟩
    have := h t ht
    simp [hid] at this

theorem delete_task_saves (tm : TaskManager) (uid tid : Int) :
    (delete_task tm uid tid).1.saves
      = if (delete_task tm uid tid).2 then tm.saves + 1 else tm.saves := by
  simp only [delete_task, get_user_tasks_snd]
  split <;> simp [get_user_tasks_saves]

end Bot

namespace Bot

end Bot

namespace Bot

/-- C1: for every store state, `add_task` assigns the new task the id
`(current number of the user's tasks) + 1`; concretely, after creating two
tasks and deleting id 1, the next creation reuses id 2, colliding with the
surviving task's id. -/
theorem add_task_id_eq_len_succ :
    (∀ (tm : TaskManager) (uid : Int) (text priority created_at : String)
        (reminder : Option String),
      (add_task tm uid text priority created_at reminder).2.id
        = (currentTasks tm uid).length + 1) ∧
    (let tm0 : TaskManager := ⟨[], 0⟩
     let tm1 := (add_task tm0 1 "A" MEDIUM "t1" none).1
     let tm2 := (add_task tm1 1 "B" MEDIUM "t2" none).1
     let tm3 := (delete_task tm2 1 1).1
     (add_task tm3 1 "C" MEDIUM "t3" none).2.id = 2 ∧
       ∃ t ∈ currentTasks tm3 1, t.id = 2) := by
  constructor
  · intro tm uid text priority created_at reminder
    simp only [add_task, currentTasks]
    cases h : dictGet tm.tasks uid with
    | none => simp [h, currentTasks, dictGet_dictSet_self]
    | some e => simp [h, currentTasks]
  · refine ⟨by decide, ?_⟩
    exact ⟨⟨2, "B", some MEDIUM, "t2", false, none⟩, by decide, by decide⟩

/-- C2 counterexample: with two tasks of id 2 in user 1's list, `delete_task`
on id 2 empties the list — the later task with the same id is NOT left in
place, contradicting "removes exactly the first task whose id matches". -/
theorem delete_task_removes_later_duplicate :
    (currentTasks tmDup 1).length = 2 ∧
    (∀ t ∈ currentTasks tmDup 1, t.id = 2) ∧
    currentTasks (delete_task tmDup 1 2).1 1 = [] := by
  refine ⟨by decide, by decide, by decide⟩

/-- C2 (amended): `delete_task` removes EVERY task whose id matches the given
id (the user's list becomes the filter keeping non-matching ids), returns
success iff some task matched (iff the list shrank), bumps the persistence
write counter exactly on success, and leaves other users' lists unchanged. -/
theorem delete_task_spec (tm : TaskManager) (uid tid : Int) :
    currentTasks (delete_task tm uid tid).1 uid
        = (currentTasks tm uid).filter (fun t => t.id ≠ tid) ∧
    ((delete_task tm uid tid).2 = true ↔ ∃ t ∈ currentTasks tm uid, t.id = tid) ∧
    ((delete_task tm uid tid).2 = true →
      (delete_task tm uid tid).1.saves = tm.saves + 1) ∧
    ((delete_task tm uid tid).2 = false →
      (delete_task tm uid tid).1.saves = tm.saves) ∧
    (∀ u, u ≠ uid → currentTasks (delete_task tm uid tid).1 u = currentTasks tm u) := by
  refine ⟨?_, delete_task_bool_iff tm uid tid, ?_, ?_, ?_⟩
  · simp [currentTasks, delete_task_tasks, dictGet_dictSet_self]
  · intro h
    rw [delete_task_saves, h, if_pos rfl]
  · intro h
    rw [delete_task_saves, h]
    rfl
  · intro u hu
    have h1 : dictGet (delete_task tm uid tid).1.tasks u
        = dictGet (get_user_tasks tm uid).1.tasks u := by
      rw [delete_task_tasks]
      exact dictGet_dictSet_ne _ _ _ _ hu
    have h2 := get_user_tasks_currentTasks tm uid u
    simp only [currentTasks] at h2 ⊢
    rw [h1]
    exact h2

/-- Witness for C2's amended theorem at the concrete store `tmOne`. -/
theorem delete_task_spec_witness :
    (delete_task tmOne 1 1).1.saves = tmOne.saves + 1 ∧
    currentTasks (delete_task tmOne 1 1).1 2 = currentTasks tmOne 2 :=
  ⟨(delete_task_spec tmOne 1 1).2.2.1 (by decide),
   (delete_task_spec tmOne 1 1).2.2.2.2 2 (by decide)⟩

theorem get_congr {α : Type} (l l' : List α) (h : l = l') (i : Nat)
    (hi : i < l.length) (hi' : i < l'.length) :
    l.get ⟨i, hi⟩ = l'.get ⟨i, hi'⟩ := by
  subst h
  rfl

theorem completeFirst_none_iff (ts : List Task) (tid : Int) :
    completeFirst ts tid = none ↔ ∀ t ∈ ts, t.id ≠ tid := by
  induction ts with
  | nil => simp [completeFirst]
  | cons t rest ih =>
    by_cases h : t.id = tid
    · simp [completeFirst, h]
    · rw [completeFirst, if_neg h]
      cases hc : completeFirst rest tid with
      | none =>
        refine iff_of_true rfl ?_
        intro x hx
        rcases List.mem_cons.mp hx with hx | hx
        · rw [hx]; exact h
        · exact ih.mp hc x hx
      | some r =>
        refine iff_of_false (by simp) ?_
        intro hall
        have : completeFirst rest tid = none :=
          ih.mpr fun x hx => hall x (List.mem_cons_of_mem _ hx)
        rw [this] at hc
        cases hc

theorem completeFirst_some_spec (tid : Int) :
    ∀ (ts ts' : List Task), completeFirst ts tid = some ts' →
      ts'.length = ts.length ∧
      (∃ t ∈ ts', t.id = tid ∧ t.completed = true) ∧
      (∀ i (hi : i < ts.length) (hi' : i < ts'.length),
        ts'.get ⟨i, hi'⟩ = ts.get ⟨i, hi⟩ ∨
        ts'.get ⟨i, hi'⟩ = { ts.get ⟨i, hi⟩ with completed := true }) := by
  intro ts
  induction ts with
  | nil => intro ts' h; simp [completeFirst] at h
  | cons t rest ih =>
    intro ts' h
    by_cases hid : t.id = tid
    · rw [completeFirst, if_pos hid] at h
      injection h with h
      subst h
      refine ⟨by simp, ⟨{ t with completed := true }, by simp, hid, rfl⟩, ?_⟩
      intro i hi hi'
      cases i with
      | zero => right; rfl
      | succ n => left; rfl
    · rw [completeFirst, if_neg hid] at h
      cases hc : completeFirst rest tid with
      | none => rw [hc] at h; cases h
      | some r =>
        rw [hc] at h
        injection h with h
        subst h
        obtain ⟨hl, ⟨x, hx, hxid, hxc⟩, hpt⟩ := ih r hc
        refine ⟨by simp [hl], ⟨x, List.mem_cons_of_mem _ hx, hxid, hxc⟩, ?_⟩
        intro i hi hi'
        cases i with
        | zero => left; rfl
        | succ n =>
          exact hpt n (by simpa using hi) (by simpa using hi')

theorem complete_task_none_case (tm : TaskManager) (uid tid : Int)
    (h : completeFirst (currentTasks tm uid) tid = none) :
    complete_task tm uid tid = ((get_user_tasks tm uid).1, false) := by
  simp [complete_task, get_user_tasks_snd, h]

theorem complete_task_some_case (tm : TaskManager) (uid tid : Int)
    (ts' : List Task) (h : completeFirst (currentTasks tm uid) tid = some ts') :
    (complete_task tm uid tid).2 = true ∧
    (complete_task tm uid tid).1.tasks
        = dictSet (get_user_tasks tm uid).1.tasks uid ⟨ts'⟩ ∧
    (complete_task tm uid tid).1.saves = tm.saves + 1 := by
  refine ⟨?_, ?_, ?_⟩ <;>
    simp [complete_task, get_user_tasks_snd, h, get_user_tasks_saves]

/-- C3: `complete_task` reports success iff some task in the user's list has
the given id; on success some task with that id is completed in the resulting
list; the list keeps its length, and a task already completed is never
toggled back (flags only go from `false` to `true`).  In particular an
already-completed id still reports success with `completed` left `true`. -/
theorem complete_task_spec (tm : TaskManager) (uid tid : Int) :
    ((complete_task tm uid tid).2 = true ↔ ∃ t ∈ currentTasks tm uid, t.id = tid) ∧
    ((complete_task tm uid tid).2 = true →
      ∃ t ∈ currentTasks (complete_task tm uid tid).1 uid,
        t.id = tid ∧ t.completed = true) ∧
    (currentTasks (complete_task tm uid tid).1 uid).length
        = (currentTasks tm uid).length ∧
    (∀ i (hi : i < (currentTasks tm uid).length)
        (hi' : i < (currentTasks (complete_task tm uid tid).1 uid).length),
      ((currentTasks tm uid).get ⟨i, hi⟩).completed = true →
        ((currentTasks (complete_task tm uid tid).1 uid).get ⟨i, hi'⟩).completed = true) := by
  cases hc : completeFirst (currentTasks tm uid) tid with
  | none =>
    have hres := complete_task_none_case tm uid tid hc
    have hcur : currentTasks (complete_task tm uid tid).1 uid = currentTasks tm uid := by
      rw [hres]
      exact get_user_tasks_currentTasks tm uid uid
    refine ⟨?_, ?_, by rw [hcur], ?_⟩
    · rw [hres]
      refine iff_of_false (by simp) ?_
      rintro ⟨t, ht, hid⟩
      exact completeFirst_none_iff _ _ |>.mp hc t ht hid
    · intro habs
      rw [hres] at habs
      cases habs
    · intro i hi hi' hdone
      rw [get_congr _ _ hcur i hi' hi]
      exact hdone
  | some ts' =>
    obtain ⟨hb, htk, _⟩ := complete_task_some_case tm uid tid ts' hc
    have hcur : currentTasks (complete_task tm uid tid).1 uid = ts' := by
      simp [currentTasks, htk, dictGet_dictSet_self]
    obtain ⟨hl, hex, hpt⟩ := completeFirst_some_spec tid _ _ hc
    refine ⟨iff_of_true hb ?_, fun _ => by rw [hcur]; exact hex, by rw [hcur, hl], ?_⟩
    · obtain ⟨x, hx, hxid, _⟩ := hex
      -- a matching id exists in the original list as well
      by_contra hnone
      push_neg at hnone
      have : completeFirst (currentTasks tm uid) tid = none :=
        completeFirst_none_iff _ _ |>.mpr hnone
      rw [this] at hc
      cases hc
    · intro i hi hi' hdone
      have hi'' : i < ts'.length := by rw [← hcur]; exact hi'
      have := hpt i hi hi''
      have hgeq : (currentTasks (complete_task tm uid tid).1 uid).get ⟨i, hi'⟩
          = ts'.get ⟨i, hi''⟩ := get_congr _ _ hcur i hi' hi''
      rcases this with hsame | hset
      · rw [hgeq, hsame]; exact hdone
      · rw [hgeq, hset]

/-- Witness for C3 at a concrete already-completed task: completing id 1
again still succeeds and `completed` remains `true`. -/
theorem complete_task_spec_witness :
    (complete_task tmDone 1 1).2 = true ∧
    ∃ t ∈ currentTasks (complete_task tmDone 1 1).1 1, t.id = 1 ∧ t.completed = true := by
  have h : (complete_task tmDone 1 1).2 = true :=
    (complete_task_spec tmDone 1 1).1.mpr
      ⟨⟨1, "A", some MEDIUM, "t1", true, none⟩, by decide, by decide⟩
  exact ⟨h, (complete_task_spec tmDone 1 1).2.1 h⟩

/-- C4 counterexample: completing or deleting a missing id for a user with no
entry in the store does NOT leave the store mapping unchanged — the
`get_user_tasks` call inside both operations materializes an empty entry for
that user. -/
theorem not_found_materializes_entry :
    (complete_task ⟨[], 0⟩ 7 1).2 = false ∧
    (delete_task ⟨[], 0⟩ 7 1).2 = false ∧
    (complete_task ⟨[], 0⟩ 7 1).1.tasks ≠ (⟨[], 0⟩ : TaskManager).tasks ∧
    (delete_task ⟨[], 0⟩ 7 1).1.tasks ≠ (⟨[], 0⟩ : TaskManager).tasks := by
  refine ⟨by decide, by decide, by decide, by decide⟩

/-- C4 (amended): for an id not present in the user's list, both
`complete_task` and `delete_task` return not-found, perform no persistence
write (save counter unchanged), and change no user's task list; the mapping
itself is unchanged when the user already has an entry, and otherwise changes
only by materializing an empty entry for that user. -/
theorem not_found_no_mutation (tm : TaskManager) (uid tid : Int)
    (h : ∀ t ∈ currentTasks tm uid, t.id ≠ tid) :
    (complete_task tm uid tid).2 = false ∧
    (delete_task tm uid tid).2 = false ∧
    (complete_task tm uid tid).1.saves = tm.saves ∧
    (delete_task tm uid tid).1.saves = tm.saves ∧
    (∀ u, currentTasks (complete_task tm uid tid).1 u = currentTasks tm u) ∧
    (∀ u, currentTasks (delete_task tm uid tid).1 u = currentTasks tm u) ∧
    ((dictGet tm.tasks uid).isSome →
      (complete_task tm uid tid).1.tasks = tm.tasks ∧
      (delete_task tm uid tid).1.tasks = tm.tasks) ∧
    (dictGet tm.tasks uid = none →
      (complete_task tm uid tid).1.tasks = dictSet tm.tasks uid ⟨[]⟩ ∧
      (delete_task tm uid tid).1.tasks = dictSet tm.tasks uid ⟨[]⟩) := by
  have hnone : completeFirst (currentTasks tm uid) tid = none :=
    (completeFirst_none_iff _ _).mpr h
  have hres := complete_task_none_case tm uid tid hnone
  have hfilter : (currentTasks tm uid).filter (fun t => t.id ≠ tid)
      = currentTasks tm uid :=
    List.filter_eq_self.mpr fun t ht => by simp [h t ht]
  have hdel2 : (delete_task tm uid tid).2 = false := by
    rw [← Bool.not_eq_true]
    intro htrue
    obtain ⟨t, ht, hid⟩ := (delete_task_bool_iff tm uid tid).mp htrue
    exact h t ht hid
  have hdeltasks : (delete_task tm uid tid).1.tasks
      = dictSet (get_user_tasks tm uid).1.tasks uid ⟨currentTasks tm uid⟩ := by
    rw [delete_task_tasks, hfilter]
  have hdeltasks' : (delete_task tm uid tid).1.tasks
      = (get_user_tasks tm uid).1.tasks := by
    rw [hdeltasks]
    exact dictSet_eq_of_dictGet _ _ _ (get_user_tasks_dictGet tm uid)
  refine ⟨by rw [hres], hdel2, ?_, ?_, ?_, ?_, ?_, ?_⟩
  · rw [hres]
    exact get_user_tasks_saves tm uid
  · rw [delete_task_saves, hdel2]
    rfl
  · intro u
    rw [hres]
    exact get_user_tasks_currentTasks tm uid u
  · intro u
    simp only [currentTasks] at *
    rw [hdeltasks']
    have := get_user_tasks_currentTasks tm uid u
    simpa [currentTasks] using this
  · intro hs
    have hgut : (get_user_tasks tm uid).1 = tm := get_user_tasks_tasks_of_some tm uid hs
    constructor
    · rw [hres, hgut]
    · rw [hdeltasks', hgut]
  · intro hn
    have hgut : (get_user_tasks tm uid).1.tasks = dictSet tm.tasks uid ⟨[]⟩ :=
      get_user_tasks_tasks_of_none tm uid hn
    constructor
    · rw [hres]
      exact hgut
    · rw [hdeltasks', hgut]

/-- Witness for C4's amended theorem: id 99 is absent from user 1's list in
`tmOne`. -/
theorem not_found_no_mutation_witness :
    (complete_task tmOne 1 99).2 = false ∧
    (delete_task tmOne 1 99).1.saves = tmOne.saves :=
  ⟨(not_found_no_mutation tmOne 1 99 (by decide)).1,
   (not_found_no_mutation tmOne 1 99 (by decide)).2.2.2.1⟩

theorem dictGet_mem_keys {κ : Type} [DecidableEq κ] {α : Type}
    (d : List (κ × α)) (k : κ) (v : α) (h : dictGet d k = some v) :
    k ∈ d.map Prod.fst := by
  induction d with
  | nil => cases h
  | cons hd tl ih =>
    obtain ⟨k', v'⟩ := hd
    by_cases hk : k' = k
    · subst hk
      simp
    · simp only [dictGet, if_neg hk] at h
      simp [ih h]

theorem bucketStep_keys (acc : List (String × List Task)) (t : Task) :
    (bucketStep acc t).map Prod.fst = acc.map Prod.fst := by
  by_cases hc : t.completed = true
  · simp [bucketStep, hc]
  · cases hg : dictGet acc (t.priority.getD MEDIUM) with
    | some b => simp [bucketStep, hc, hg, dictSet_keys_of_mem _ _ _ _ hg]
    | none => simp [bucketStep, hc, hg]

theorem bucketStep_foldl_keys (ts : List Task) :
    ∀ acc : List (String × List Task),
      (ts.foldl bucketStep acc).map Prod.fst = acc.map Prod.fst := by
  induction ts with
  | nil => intro acc; rfl
  | cons t rest ih =>
    intro acc
    rw [List.foldl_cons, ih (bucketStep acc t), bucketStep_keys]

/-- The bucket predicate: what ends up in bucket `p`. -/
def inBucket (p : String) (t : Task) : Bool :=
  !t.completed && (t.priority.getD MEDIUM == p)

theorem bucketStep_foldl_get (p : String) (ts : List Task) :
    ∀ acc : List (String × List Task),
      dictGet (ts.foldl bucketStep acc) p
        = (dictGet acc p).map (fun b => b ++ ts.filter (inBucket p)) := by
  induction ts with
  | nil => intro acc; cases h : dictGet acc p <;> simp [h]
  | cons t rest ih =>
    intro acc
    rw [List.foldl_cons, ih (bucketStep acc t)]
    by_cases hc : t.completed = true
    · have hstep : bucketStep acc t = acc := by simp [bucketStep, hc]
      have hf : (t :: rest).filter (inBucket p) = rest.filter (inBucket p) := by
        simp [List.filter_cons, inBucket, hc]
      rw [hstep, hf]
    · have hc' : t.completed = false := by
        cases hcv : t.completed
        · rfl
        · exact absurd hcv hc
      cases hg : dictGet acc (t.priority.getD MEDIUM) with
      | some b =>
        have hstep : bucketStep acc t
            = dictSet acc (t.priority.getD MEDIUM) (b ++ [t]) := by
          simp [bucketStep, hc, hg]
        rw [hstep]
        by_cases hp : t.priority.getD MEDIUM = p
        · rw [hp] at hg ⊢
          rw [dictGet_dictSet_self, hg]
          have hf : (t :: rest).filter (inBucket p)
              = t :: rest.filter (inBucket p) := by
            simp [List.filter_cons, inBucket, hc', hp]
          rw [hf]
          simp
        · rw [dictGet_dictSet_ne _ _ _ _ (fun hh => hp hh.symm)]
          have hf : (t :: rest).filter (inBucket p) = rest.filter (inBucket p) := by
            simp [List.filter_cons, inBucket, hc', hp]
          rw [hf]
      | none =>
        have hstep : bucketStep acc t = acc := by simp [bucketStep, hc, hg]
        rw [hstep]
        cases hgp : dictGet acc p with
        | none => simp [hgp]
        | some b =>
          have hp : t.priority.getD MEDIUM ≠ p := by
            intro hh
            rw [hh, hgp] at hg
            cases hg
          have hf : (t :: rest).filter (inBucket p) = rest.filter (inBucket p) := by
            simp [List.filter_cons, inBucket, hc', hp]
          rw [hf]

theorem dictGet_init_of_mem (p : String) (hp : p ∈ PRIORITIES) :
    dictGet (PRIORITIES.map fun q => (q, ([] : List Task))) p = some [] := by
  simp only [PRIORITIES, List.mem_cons, List.mem_singleton] at hp
  rcases hp with rfl | rfl | hp
  · decide
  · decide
  · rcases hp with rfl | hp
    · decide
    · cases hp

theorem tasks_by_priority_snd (tm : TaskManager) (uid : Int) :
    (get_tasks_by_priority tm uid).2
      = (currentTasks tm uid).foldl bucketStep
          (PRIORITIES.map fun q => (q, ([] : List Task))) := by
  simp [get_tasks_by_priority, get_user_tasks_snd]

/-- Full characterization of the grouped view: the result has exactly the
three priority keys in order, and the bucket of each `p ∈ PRIORITIES` is
exactly the in-order filter of the user's incomplete tasks whose effective
priority equals `p`; conversely every bucket arises this way. -/
theorem tasks_by_priority_char (tm : TaskManager) (uid : Int) :
    ((get_tasks_by_priority tm uid).2.map Prod.fst = PRIORITIES) ∧
    (∀ p, p ∈ PRIORITIES →
      dictGet (get_tasks_by_priority tm uid).2 p
        = some ((currentTasks tm uid).filter (inBucket p))) ∧
    (∀ p b, dictGet (get_tasks_by_priority tm uid).2 p = some b →
      p ∈ PRIORITIES ∧ b = (currentTasks tm uid).filter (inBucket p)) := by
  have hkeys : (get_tasks_by_priority tm uid).2.map Prod.fst = PRIORITIES := by
    rw [tasks_by_priority_snd, bucketStep_foldl_keys]
    rfl
  have hget : ∀ p, p ∈ PRIORITIES →
      dictGet (get_tasks_by_priority tm uid).2 p
        = some ((currentTasks tm uid).filter (inBucket p)) := by
    intro p hp
    rw [tasks_by_priority_snd, bucketStep_foldl_get, dictGet_init_of_mem p hp]
    simp
  refine ⟨hkeys, hget, ?_⟩
  intro p b hb
  have hp : p ∈ PRIORITIES := by
    rw [← hkeys]
    exact dictGet_mem_keys _ _ _ hb
  refine ⟨hp, ?_⟩
  rw [hget p hp] at hb
  injection hb with hb
  exact hb.symm

/-- C5: `get_tasks_by_priority` returns exactly the three priority buckets in
order (present even when empty); every bucket holds only tasks with
`completed = false` (so no completed task appears anywhere), and each bucket
is a sublist of the user's list, i.e. keeps the list's relative order. -/
theorem tasks_by_priority_spec (tm : TaskManager) (uid : Int) :
    ((get_tasks_by_priority tm uid).2.map Prod.fst = PRIORITIES) ∧
    (∀ p, p ∈ PRIORITIES → ∃ b, dictGet (get_tasks_by_priority tm uid).2 p = some b) ∧
    (∀ p b, dictGet (get_tasks_by_priority tm uid).2 p = some b →
      (∀ t ∈ b, t.completed = false) ∧ List.Sublist b (currentTasks tm uid)) := by
  obtain ⟨hkeys, hget, hchar⟩ := tasks_by_priority_char tm uid
  refine ⟨hkeys, fun p hp => ⟨_, hget p hp⟩, ?_⟩
  intro p b hb
  obtain ⟨hp, rfl⟩ := hchar p b hb
  constructor
  · intro t ht
    have hpred := (List.mem_filter.mp ht).2
    simp only [inBucket, Bool.and_eq_true, Bool.not_eq_true'] at hpred
    exact hpred.1
  · exact List.filter_sublist _

/-- Witness for C5 at the concrete store `tmMixed`. -/
theorem tasks_by_priority_spec_witness :
    (get_tasks_by_priority tmMixed 1).2.map Prod.fst = PRIORITIES ∧
    taskNoPr.completed = false ∧
    List.Sublist [taskNoPr] (currentTasks tmMixed 1) :=
  ⟨(tasks_by_priority_spec tmMixed 1).1,
   ((tasks_by_priority_spec tmMixed 1).2.2 MEDIUM [taskNoPr] (by decide)).1
     taskNoPr (by decide),
   ((tasks_by_priority_spec tmMixed 1).2.2 MEDIUM [taskNoPr] (by decide)).2⟩

/-- C10: an incomplete task whose stored priority is not one of the three
labels lands in no bucket of the grouped view, while an incomplete task with
no priority field is bucketed under Medium. -/
theorem bucket_unknown_dropped_missing_medium (tm : TaskManager) (uid : Int)
    (t : Task) (ht : t ∈ currentTasks tm uid) (hc : t.completed = false) :
    (∀ q, t.priority = some q → q ∉ PRIORITIES →
      ∀ p b, dictGet (get_tasks_by_priority tm uid).2 p = some b → t ∉ b) ∧
    (t.priority = none →
      ∃ b, dictGet (get_tasks_by_priority tm uid).2 MEDIUM = some b ∧ t ∈ b) := by
  obtain ⟨hkeys, hget, hchar⟩ := tasks_by_priority_char tm uid
  constructor
  · intro q hq hqn p b hb htb
    obtain ⟨hp, rfl⟩ := hchar p b hb
    have hpred := (List.mem_filter.mp htb).2
    simp only [inBucket, hq, Option.getD_some, Bool.and_eq_true, beq_iff_eq] at hpred
    exact hqn (by rw [hpred.2]; exact hp)
  · intro hq
    have hmem : MEDIUM ∈ PRIORITIES := by decide
    refine ⟨_, hget MEDIUM hmem, ?_⟩
    refine List.mem_filter.mpr ⟨ht, ?_⟩
    simp [inBucket, hq, hc]

/-- Witness for C10 at the concrete store `tmMixed`: the unknown-priority
task is not in the Medium bucket `[taskNoPr]`, which is the bucket holding
the priority-less task. -/
theorem bucket_unknown_dropped_missing_medium_witness :
    taskBadPr ∉ ([taskNoPr] : List Task) ∧
    dictGet (get_tasks_by_priority tmMixed 1).2 MEDIUM = some [taskNoPr] ∧
    taskNoPr ∈ ([taskNoPr] : List Task) := by
  refine ⟨?_, by decide, by decide⟩
  exact (bucket_unknown_dropped_missing_medium tmMixed 1 taskBadPr (by decide) rfl).1
    "???" rfl (by decide) MEDIUM [taskNoPr] (by decide)

theorem add_task_fields (tm : TaskManager) (uid : Int) (text pr c : String)
    (rem : Option String) :
    (add_task tm uid text pr c rem).2
      = { id := ((currentTasks tm uid).length : Int) + 1, text := text,
          priority := some pr, created_at := c, completed := false,
          reminder := rem } := by
  cases h : dictGet tm.tasks uid with
  | none => simp [add_task, h, currentTasks, dictGet_dictSet_self]
  | some e => simp [add_task, h, currentTasks]

theorem add_task_appends (tm : TaskManager) (uid : Int) (text pr c : String)
    (rem : Option String) :
    currentTasks (add_task tm uid text pr c rem).1 uid
      = currentTasks tm uid ++ [(add_task tm uid text pr c rem).2] := by
  cases h : dictGet tm.tasks uid with
  | none => simp [add_task, h, currentTasks, dictGet_dictSet_self]
  | some e => simp [add_task, h, currentTasks, dictGet_dictSet_self]

/-- C6: in the reminder step EVERY input ends the dialogue: the conversation
returns to `idle` (END), the draft (`user_data`) is cleared, and a task is
appended to the user's list built from the draft's text and priority; its
reminder is now-plus-offset formatted by `fmt` when the input is one of the
four offset labels, and `none` for any other input (no rejection). -/
theorem set_reminder_spec (fmt : Nat → String) (now : Nat) (uid : Int)
    (input : String) (ud : UserData) (tm : TaskManager) (t p : String)
    (ht : ud.task_text = some t) (hp : ud.task_priority = some p) :
    ∃ r, set_reminder fmt now uid input ud tm = some r ∧
      r.1 = ConvState.idle ∧
      r.2.1 = emptyUserData ∧
      r.2.2.2.text = t ∧
      r.2.2.2.priority = some p ∧
      r.2.2.2.reminder = (computeReminder now input).map fmt ∧
      (input = "Через 1 час" → r.2.2.2.reminder = some (fmt (now + 3600))) ∧
      (input = "Через 3 часа" → r.2.2.2.reminder = some (fmt (now + 3 * 3600))) ∧
      (input = "Завтра" → r.2.2.2.reminder = some (fmt (now + 86400))) ∧
      (input = "Через неделю" → r.2.2.2.reminder = some (fmt (now + 7 * 86400))) ∧
      (input ≠ "Через 1 час" → input ≠ "Через 3 часа" → input ≠ "Завтра" →
        input ≠ "Через неделю" → r.2.2.2.reminder = none) ∧
      currentTasks r.2.2.1 uid = currentTasks tm uid ++ [r.2.2.2] := by
  have hrun : set_reminder fmt now uid input ud tm
      = some (ConvState.idle, emptyUserData,
          (add_task tm uid t p (fmt now) ((computeReminder now input).map fmt)).1,
          (add_task tm uid t p (fmt now) ((computeReminder now input).map fmt)).2) := by
    simp [set_reminder, ht, hp]
  refine ⟨_, hrun, rfl, rfl, ?_, ?_, ?_, ?_, ?_, ?_, ?_, ?_, ?_⟩
  · rw [add_task_fields]
  · rw [add_task_fields]
  · rw [add_task_fields]
  · intro h
    rw [add_task_fields]
    simp [computeReminder, h]
  · intro h
    rw [add_task_fields]
    simp [computeReminder, h]
  · intro h
    rw [add_task_fields]
    simp [computeReminder, h]
  · intro h
    rw [add_task_fields]
    simp [computeReminder, h]
  · intro h1 h2 h3 h4
    rw [add_task_fields]
    simp [computeReminder, h1, h2, h3, h4]
  · exact add_task_appends tm uid t p (fmt now) ((computeReminder now input).map fmt)

/-- Witness for C6: a concrete reminder step on the label "Завтра". -/
theorem set_reminder_spec_witness :
    (set_reminder (fun n => toString n) 0 1 "Завтра"
        ⟨some "Buy milk", some MEDIUM, false, false⟩ ⟨[], 0⟩).isSome = true := by
  obtain ⟨r, h1, -⟩ := set_reminder_spec (fun n => toString n) 0 1 "Завтра"
    ⟨some "Buy milk", some MEDIUM, false, false⟩ ⟨[], 0⟩ "Buy milk" MEDIUM rfl rfl
  rw [h1]
  rfl

/-- C7: while a pending flag is set, the next message is parsed as a signed
base-10 integer; on parse failure nothing changes (flag kept, no store
operation); on parse success the matching store operation runs and the
consumed flag is cleared unconditionally (the result of the operation, found
or not, does not matter); with no flag set nothing happens. -/
theorem handle_task_action_spec (tm : TaskManager) (uid : Int) (ud : UserData)
    (text : String) :
    (pyInt text = none → handle_task_action tm uid ud text = (tm, ud)) ∧
    (∀ n, pyInt text = some n →
      (ud.awaiting_complete = true →
        handle_task_action tm uid ud text
          = ((complete_task tm uid n).1, { ud with awaiting_complete := false })) ∧
      (ud.awaiting_complete = false → ud.awaiting_delete = true →
        handle_task_action tm uid ud text
          = ((delete_task tm uid n).1, { ud with awaiting_delete := false })) ∧
      (ud.awaiting_complete = false → ud.awaiting_delete = false →
        handle_task_action tm uid ud text = (tm, ud))) := by
  constructor
  · intro h
    simp [handle_task_action, h]
  · intro n h
    refine ⟨?_, ?_, ?_⟩
    · intro hac
      simp [handle_task_action, h, hac]
    · intro hac had
      simp [handle_task_action, h, hac, had]
    · intro hac had
      simp [handle_task_action, h, hac, had]

/-- Witness for C7: non-numeric input leaves the awaiting-completion flag
set; numeric input dispatches `complete_task` and clears it. -/
theorem handle_task_action_spec_witness :
    handle_task_action tmOne 1 udAwaitC "abc" = (tmOne, udAwaitC) ∧
    handle_task_action tmOne 1 udAwaitC "2"
      = ((complete_task tmOne 1 2).1, { udAwaitC with awaiting_complete := false }) :=
  ⟨(handle_task_action_spec tmOne 1 udAwaitC "abc").1 (by decide),
   ((handle_task_action_spec tmOne 1 udAwaitC "2").2 2 (by decide)).1 rfl⟩

/-- C9: `cancel` clears the whole per-user session state in one step — draft
text, draft priority, and both pending-action flags — and leaves the task
store untouched. -/
theorem cancel_clears_session (ud : UserData) (tm : TaskManager) :
    (cancel ud tm).1.task_text = none ∧
    (cancel ud tm).1.task_priority = none ∧
    (cancel ud tm).1.awaiting_complete = false ∧
    (cancel ud tm).1.awaiting_delete = false ∧
    (cancel ud tm).2 = tm :=
  ⟨rfl, rfl, rfl, rfl, rfl⟩

theorem convRun_cons (fmt : Nat → String) (now : Nat) (uid : Int)
    (s : ConvState) (ud : UserData) (tm : TaskManager) (i : String)
    (rest : List String) (r : ConvState × UserData × TaskManager × Option Task)
    (h : dialogStep fmt now uid s ud tm i = some r) :
    convRun fmt now uid s ud tm (i :: rest)
      = (convRun fmt now uid r.1 r.2.1 r.2.2.1 rest).map
          (fun q => (q.1, q.2.1, q.2.2.1, r.2.2.2.toList ++ q.2.2.2)) := by
  rw [convRun, h]
  cases hc : convRun fmt now uid r.1 r.2.1 r.2.2.1 rest with
  | none => simp [hc]
  | some q => simp [hc]

theorem convRun_priority_self_loop (fmt : Nat → String) (now : Nat) (uid : Int)
    (ps : List String) (hps : ∀ q ∈ ps, q ∉ PRIORITIES) (ud : UserData)
    (tm : TaskManager) (rest : List String) :
    convRun fmt now uid ConvState.SET_PRIORITY ud tm (ps ++ rest)
      = convRun fmt now uid ConvState.SET_PRIORITY ud tm rest := by
  induction ps with
  | nil => rfl
  | cons q qs ih =>
    have hq : q ∉ PRIORITIES := hps q (List.mem_cons_self _ _)
    have hstep : dialogStep fmt now uid ConvState.SET_PRIORITY ud tm q
        = some (ConvState.SET_PRIORITY, ud, tm, none) := by
      simp [dialogStep, set_priority, hq]
    rw [List.cons_append,
      convRun_cons fmt now uid ConvState.SET_PRIORITY ud tm q (qs ++ rest) _ hstep,
      ih (fun x hx => hps x (List.mem_cons_of_mem _ hx))]
    cases convRun fmt now uid ConvState.SET_PRIORITY ud tm rest <;> rfl

/-- C8 counterexample: `add_task_start` does NOT discard a prior conversation
draft — it returns `user_data` unchanged, with the stale text field still
present. -/
theorem add_task_start_keeps_draft :
    (add_task_start ⟨some "old text", some MEDIUM, false, false⟩).2 ≠ emptyUserData ∧
    (add_task_start ⟨some "old text", some MEDIUM, false, false⟩).2.task_text
      = some "old text" :=
  ⟨by decide, rfl⟩

/-- C8 (amended): the start-creation handler leaves any prior draft in place,
but no field of an earlier dialogue can appear in the task produced by a
later dialogue anyway: a full run of the creation dialogue started from an
ARBITRARY stale draft `ud0` produces exactly one task, whose text is the
run's first input and whose priority is the run's accepted priority input
(and the draft is cleared at the end) — the outcome does not depend on
`ud0`. -/
theorem add_task_start_no_leak (fmt : Nat → String) (now : Nat) (uid : Int)
    (ud0 : UserData) (tm : TaskManager) (t : String) (ps : List String)
    (p rinput : String) (hp : p ∈ PRIORITIES)
    (hps : ∀ q ∈ ps, q ∉ PRIORITIES) :
    add_task_start ud0 = (ConvState.ADD_TASK, ud0) ∧
    ∃ tmf task,
      convRun fmt now uid ConvState.ADD_TASK ud0 tm (t :: (ps ++ [p, rinput]))
        = some (ConvState.idle, emptyUserData, tmf, [task]) ∧
      task.text = t ∧ task.priority = some p := by
  refine ⟨rfl, ?_⟩
  have h1 : dialogStep fmt now uid ConvState.ADD_TASK ud0 tm t
      = some (ConvState.SET_PRIORITY, { ud0 with task_text := some t }, tm, none) := rfl
  rw [convRun_cons fmt now uid ConvState.ADD_TASK ud0 tm t (ps ++ [p, rinput]) _ h1]
  rw [convRun_priority_self_loop fmt now uid ps hps _ tm [p, rinput]]
  have h2 : dialogStep fmt now uid ConvState.SET_PRIORITY
      { ud0 with task_text := some t } tm p
      = some (ConvState.SET_REMINDER,
          { ud0 with task_text := some t, task_priority := some p }, tm, none) := by
    simp [dialogStep, set_priority, hp]
  rw [convRun_cons fmt now uid ConvState.SET_PRIORITY _ tm p [rinput] _ h2]
  have h3 : dialogStep fmt now uid ConvState.SET_REMINDER
      { ud0 with task_text := some t, task_priority := some p } tm rinput
      = some (ConvState.idle, emptyUserData,
          (add_task tm uid t p (fmt now) ((computeReminder now rinput).map fmt)).1,
          some (add_task tm uid t p (fmt now) ((computeReminder now rinput).map fmt)).2) := by
    simp [dialogStep, set_reminder]
  rw [convRun_cons fmt now uid ConvState.SET_REMINDER _ tm rinput [] _ h3]
  refine ⟨(add_task tm uid t p (fmt now) ((computeReminder now rinput).map fmt)).1,
    (add_task tm uid t p (fmt now) ((computeReminder now rinput).map fmt)).2,
    rfl, ?_, ?_⟩
  · rw [add_task_fields]
  · rw [add_task_fields]

/-- Witness for C8's amended theorem: a concrete stale draft and a concrete
run (one invalid priority input, then a valid one). -/
theorem add_task_start_no_leak_witness :
    add_task_start ⟨some "stale", some "stale-pr", false, false⟩
      = (ConvState.ADD_TASK, ⟨some "stale", some "stale-pr", false, false⟩) ∧
    ∃ tmf task,
      convRun (fun n => toString n) 0 1 ConvState.ADD_TASK
          ⟨some "stale", some "stale-pr", false, false⟩ ⟨[], 0⟩
          ("Buy milk" :: (["nonsense"] ++ [MEDIUM, "Без напоминания"]))
        = some (ConvState.idle, emptyUserData, tmf, [task]) ∧
      task.text = "Buy milk" ∧ task.priority = some MEDIUM :=
  add_task_start_no_leak (fun n => toString n) 0 1
    ⟨some "stale", some "stale-pr", false, false⟩ ⟨[], 0⟩ "Buy milk" ["nonsense"]
    MEDIUM "Без напоминания" (by decide)
    (by intro q hq; simp at hq; subst hq; decide)

end Bot
